import Mathlib

/-
  Verification development for the donabrookies/backend-vercel repository.

  The definitions below are a shallow embedding of the stock-adjustment
  routine `updateStockForOrder` (src/api/index.js lines 231-357, duplicated
  verbatim in src/unnamed/part_000 lines 122-248), of the product
  normalization routine `normalizeProducts` (src/api/index.js lines 71-116),
  and of the caller-side input filter of the POST /api/orders/update-stock
  handler (src/api/index.js lines 1066-1072).

  Modelling conventions:
  - JavaScript numbers stored in product variants are embedded as `Int`;
    a possibly-missing field is `Option Int` and the JavaScript fallback
    `x || 0` is `jsOrInt` (missing becomes 0 and, since `0 || 0` is `0`,
    every stored integer is returned unchanged, including negative ones).
  - The two external store calls (bulk read, bulk upsert) and the audit
    append are collaborators: the bulk-read result is a parameter
    (`currentProducts`), and the outcome record lists the calls that the
    routine issued, so that the theorems can speak about the absence or
    the content of a write. Success of the bulk write and of the audit
    append are Boolean parameters; a failing bulk write is re-thrown by
    the routine (modelled as an error return), a failing audit append is
    swallowed and only remembered in the `auditError` flag, exactly as in
    the source.
  - The caller-side filter works on untyped JSON values, embedded as
    `JsVal` (a rational for a finite number, a separate constructor for
    NaN, which also has typeof number in JavaScript).
-/

set_option maxHeartbeats 1000000

namespace BackendVercel

/-- JavaScript `x || 0` on an optional stored integer: `undefined` becomes
`0`; every stored integer is returned unchanged (note that this does not
clamp negative values, since `-5 || 0` is `-5` in JavaScript). -/
def jsOrInt (x : Option Int) : Int :=
  match x with
  | none => 0
  | some q => q

/-- JavaScript `x || d` on an optional string: `undefined` and the empty
string (both falsy) become the default `d`. -/
def jsOrStr (x : Option String) (d : String) : String :=
  match x with
  | none => d
  | some s => if s = "" then d else s

/-- One size row of the legacy `colors`/`sizes` product shape
(src/api/index.js line 82). -/
structure SizeRec where
  stock : Option Int
deriving Repr, DecidableEq

/-- One legacy color row (src/api/index.js lines 76-85). -/
structure Color where
  name : Option String
  image : Option String
  sizes : Option (List SizeRec)
  quantity : Option Int
  descr : Option String
deriving Repr, DecidableEq

/-- One variant ("sabor") of a product: name, image, available quantity and
description, each field possibly absent in the stored JSON. -/
structure Sabor where
  name : Option String
  image : Option String
  quantity : Option Int
  descr : Option String
deriving Repr, DecidableEq

/-- A stored product row: identifier, title, optional legacy `colors`
array, optional `sabores` array. The remaining columns (category, price,
status, display order) are never read by the routines under verification
and are omitted from the embedding. -/
structure Product where
  id : Int
  title : Option String
  colors : Option (List Color)
  sabores : Option (List Sabor)
deriving Repr, DecidableEq

/-- The comparator passed to `Array.prototype.sort` inside
`normalizeProducts` (src/api/index.js lines 91-101): a variant with stock
above zero sorts before a variant with stock exactly zero; every other
pair compares equal. -/
def saborCompare (a b : Sabor) : Int :=
  let aStock := jsOrInt a.quantity
  let bStock := jsOrInt b.quantity
  if 0 < aStock ∧ bStock = 0 then -1
  else if aStock = 0 ∧ 0 < bStock then 1
  else 0

/-- Stable insertion used to embed `Array.prototype.sort`: `x` is placed
immediately before the first element `y` with `cmp x y < 0` and after
every earlier element. Inserting the array elements from left to right
gives a stable sort, matching the ECMAScript requirement that
`Array.prototype.sort` be stable. -/
def sortInsert (cmp : Sabor → Sabor → Int) (x : Sabor) : List Sabor → List Sabor
  | [] => [x]
  | y :: ys => if cmp x y < 0 then x :: y :: ys else y :: sortInsert cmp x ys

/-- The embedding of `[...array].sort(cmp)`: a stable comparison sort. -/
def jsSort (cmp : Sabor → Sabor → Int) (l : List Sabor) : List Sabor :=
  l.foldl (fun acc x => sortInsert cmp x acc) []

/-- The per-variant field normalization applied after sorting
(src/api/index.js lines 105-110). -/
def fillSabor (sabor : Sabor) : Sabor :=
  { name := some (jsOrStr sabor.name "Sem nome"),
    image := some (jsOrStr sabor.image "https://via.placeholder.com/400x300"),
    quantity := some (jsOrInt sabor.quantity),
    descr := some (jsOrStr sabor.descr "") }

/-- Conversion of one legacy color row to a variant
(src/api/index.js lines 79-84): the quantity is the sum of the per-size
stocks when a `sizes` array is present, else the color quantity. -/
def colorToSabor (color : Color) : Sabor :=
  { name := some (jsOrStr color.name "Sem nome"),
    image := some (jsOrStr color.image "https://via.placeholder.com/400x300"),
    quantity := some (match color.sizes with
      | some sizes => sizes.foldl (fun total size => total + jsOrInt size.stock) 0
      | none => jsOrInt color.quantity),
    descr := some (jsOrStr color.descr "") }

/-- `normalizeProducts` (src/api/index.js lines 71-116): legacy `colors`
records are converted, records with a `sabores` array get the stable
available-first sort followed by per-field defaulting, anything else is
returned unchanged. The top-level guard rejecting a non-array argument is
discharged by the typing of the embedding. -/
def normalizeProducts (products : List Product) : List Product :=
  products.map fun product =>
    match product.colors with
    | some colorsList =>
      { product with sabores := some (colorsList.map colorToSabor) }
    | none =>
      match product.sabores with
      | some saboresList =>
        { product with
            sabores := some ((jsSort saborCompare saboresList).map fillSabor) }
      | none => product

/-- One order line as received by the stock processor: product id, variant
index and quantity ordered (src/api/index.js lines 271-277). -/
structure OrderItem where
  id : Int
  saborIndex : Int
  quantity : Int
deriving Repr, DecidableEq

/-- One entry of the in-memory `updates` list
(src/api/index.js lines 281-287). -/
structure UpdateRec where
  productId : Int
  saborName : Option String
  oldQuantity : Int
  newQuantity : Int
  quantityOrdered : Int
deriving Repr, DecidableEq

/-- One entry of the `stockUpdates` audit list
(src/api/index.js lines 289-297). The `updated_at` timestamp added at
insertion time (line 332) carries no information for the claims and is
omitted. -/
structure StockUpdateRec where
  product_id : Int
  sabor_index : Int
  old_stock : Int
  new_stock : Int
  quantity_ordered : Int
  product_title : Option String
  sabor_name : Option String
deriving Repr, DecidableEq

/-- The in-memory scratch state of one processor invocation: the working
copy map (a JavaScript `Map`, embedded as an insertion-ordered association
list of products) plus the two accumulated lists. -/
structure StockState where
  productsMap : List Product
  updates : List UpdateRec
  stockUpdates : List StockUpdateRec
deriving Repr, DecidableEq

/-- `productsMap.get(pid)`: first entry whose id matches. -/
def mapGet (m : List Product) (pid : Int) : Option Product :=
  match m with
  | [] => none
  | p :: rest => if p.id = pid then some p else mapGet rest pid

/-- `productsMap.set(q.id, q)`: replace the entry with the same key in
place, else append (JavaScript `Map` keeps insertion order and re-setting
a key keeps its original position). -/
def mapSet (m : List Product) (q : Product) : List Product :=
  match m with
  | [] => [q]
  | p :: rest => if p.id = q.id then q :: rest else p :: mapSet rest q

/-- Building the working-copy map from the fetched snapshot
(src/api/index.js lines 262-265); the `{...product}` shallow copy is the
identity in a functional embedding. -/
def mkProductsMap (currentProducts : List Product) : List Product :=
  currentProducts.foldl mapSet []

/-- The in-place mutation of one map entry through its reference: the
first entry with the given id is replaced. -/
def mapUpdate (m : List Product) (pid : Int) (q : Product) : List Product :=
  match m with
  | [] => []
  | p :: rest => if p.id = pid then q :: rest else p :: mapUpdate rest pid q

/-- Processing of one order line (the body of the `items.forEach` loop,
src/api/index.js lines 271-300): look the product up in the working map;
if it exists, has a `sabores` array and the variant index is an in-range
array index, read the old quantity with the `|| 0` fallback, clamp the
decrement at zero, and if the quantity changed, write it into the working
copy and append one record to each of the two lists; in every other case
the state is returned untouched. -/
def stepItem (s : StockState) (it : OrderItem) : StockState :=
  match mapGet s.productsMap it.id with
  | none => s
  | some product =>
    match product.sabores with
    | none => s
    | some saboresList =>
      if 0 ≤ it.saborIndex then
        match saboresList[it.saborIndex.toNat]? with
        | none => s
        | some sabor =>
          let oldQuantity := jsOrInt sabor.quantity
          let newQuantity := max 0 (oldQuantity - it.quantity)
          if oldQuantity = newQuantity then s
          else
            { productsMap := mapUpdate s.productsMap it.id
                { product with
                    sabores := some (saboresList.set it.saborIndex.toNat
                      { sabor with quantity := some newQuantity }) },
              updates := s.updates ++
                [{ productId := product.id, saborName := sabor.name,
                   oldQuantity := oldQuantity, newQuantity := newQuantity,
                   quantityOrdered := it.quantity }],
              stockUpdates := s.stockUpdates ++
                [{ product_id := product.id, sabor_index := it.saborIndex,
                   old_stock := oldQuantity, new_stock := newQuantity,
                   quantity_ordered := it.quantity,
                   product_title := product.title, sabor_name := sabor.name }] }
      else s

/-- The full `items.forEach` loop. -/
def processItems (s : StockState) (items : List OrderItem) : StockState :=
  items.foldl stepItem s

/-- The JSON object returned by `updateStockForOrder` on success: the two
early returns carry no `updates` and no `products` field, embedded as
`none`. -/
structure StockResult where
  success : Bool
  message : String
  updates : Option Nat
  products : Option Nat
deriving Repr, DecidableEq

/-- Normal return versus thrown error of `updateStockForOrder`. -/
inductive StockReturn where
  | ok (r : StockResult)
  | error (msg : String)
deriving Repr, DecidableEq

/-- Observable outcome of one invocation: the returned or thrown value,
whether the bulk read was reached, the content of the bulk upsert and of
the audit insert when they were issued, and whether an audit failure was
swallowed. -/
structure StockOutcome where
  result : StockReturn
  didFetch : Bool
  bulkWrite : Option (List Product)
  auditInsert : Option (List StockUpdateRec)
  auditError : Bool
deriving Repr, DecidableEq

/-- The distinct product ids referenced by the order lines
(src/api/index.js line 241), in first-occurrence order; this is the key set
of the bulk read, whose result is the `currentProducts` parameter of
`updateStockForOrder`. -/
def orderProductIds (items : List OrderItem) : List Int :=
  (items.map OrderItem.id).dedup

/-- `updateStockForOrder` (src/api/index.js lines 231-357).
`currentProducts` is the list of rows returned by the bulk read (the
Supabase select over the referenced ids); `writeOk` and `auditOk` tell
whether the bulk upsert and the audit insert succeed. A read failure
aborts before anything observable happens and is not modelled. -/
def updateStockForOrder (items : List OrderItem) (currentProducts : List Product)
    (writeOk auditOk : Bool) : StockOutcome :=
  if items.length = 0 then
    { result := StockReturn.ok
        { success := true, message := "Nenhum item para atualizar",
          updates := none, products := none },
      didFetch := false, bulkWrite := none, auditInsert := none,
      auditError := false }
  else if currentProducts.length = 0 then
    { result := StockReturn.ok
        { success := true, message := "Nenhum produto encontrado para atualizar",
          updates := none, products := none },
      didFetch := true, bulkWrite := none, auditInsert := none,
      auditError := false }
  else
    let st := processItems
      { productsMap := mkProductsMap currentProducts, updates := [], stockUpdates := [] }
      items
    if st.updates.length = 0 then
      { result := StockReturn.ok
          { success := true, message := "Nenhuma atualização de estoque necessária",
            updates := none, products := none },
        didFetch := true, bulkWrite := none, auditInsert := none,
        auditError := false }
    else
      let productsToUpdate := st.productsMap.filter fun product =>
        st.updates.any fun update => update.productId = product.id
      if writeOk = false then
        { result := StockReturn.error "Erro ao atualizar produtos",
          didFetch := true, bulkWrite := some productsToUpdate,
          auditInsert := none, auditError := false }
      else
        { result := StockReturn.ok
            { success := true,
              message := "Estoque atualizado para " ++ toString st.updates.length ++ " itens",
              updates := some st.updates.length,
              products := some productsToUpdate.length },
          didFetch := true, bulkWrite := some productsToUpdate,
          auditInsert := if 0 < st.stockUpdates.length then some st.stockUpdates else none,
          auditError := decide (0 < st.stockUpdates.length) && !auditOk }

/-- An untyped JSON/JavaScript value as tested by the caller-side filter:
a finite number (embedded as a rational), NaN (whose typeof is also
number), or a value of some other type. -/
inductive JsVal where
  | num (q : ℚ)
  | nan
  | str (s : String)
  | boolean (b : Bool)
  | nullv
deriving Repr, DecidableEq

/-- One raw line of the request body of POST /api/orders/update-stock. -/
structure RawItem where
  id : JsVal
  saborIndex : JsVal
  quantity : JsVal
deriving Repr, DecidableEq

/-- The JavaScript test `typeof v === "number"`. -/
def typeofNumber : JsVal → Bool
  | JsVal.num _ => true
  | JsVal.nan => true
  | _ => false

/-- The JavaScript test `v > 0` as used on `item.quantity`; `NaN > 0` is
false. -/
def jsPositive : JsVal → Bool
  | JsVal.num q => decide (0 < q)
  | _ => false

/-- The caller-side filter of the update-stock endpoint
(src/api/index.js lines 1066-1072): an entry passes when it is present
and its `id`, `saborIndex` and `quantity` all have typeof number and the
quantity is greater than zero. A null entry in the array fails the
leading `item &&` test. -/
def validItems (items : List (Option RawItem)) : List (Option RawItem) :=
  items.filter fun item =>
    match item with
    | none => false
    | some it =>
      typeofNumber it.id && typeofNumber it.saborIndex &&
        typeofNumber it.quantity && jsPositive it.quantity

/-- The JavaScript value is an integer number. -/
def isIntegerVal : JsVal → Bool
  | JsVal.num q => decide (q.den = 1)
  | _ => false

/-- The filter predicate claimed by the spec: the product identifier is an
integer, the variant index is an integer, and the quantity is an integer
strictly greater than zero (stated for comparison with the source filter,
which it does not match). -/
def specValidLine (item : Option RawItem) : Bool :=
  match item with
  | none => false
  | some it =>
    isIntegerVal it.id && isIntegerVal it.saborIndex &&
      isIntegerVal it.quantity && jsPositive it.quantity

/-- The predicate the source filter actually decides: the line is present
and the three fields are of number type, with quantity greater than zero;
integrality is not tested. -/
def amendedValidLine (item : Option RawItem) : Bool :=
  match item with
  | none => false
  | some it =>
    typeofNumber it.id && typeofNumber it.saborIndex &&
      typeofNumber it.quantity && jsPositive it.quantity

/-- Observer: the effective quantity (with the `|| 0` reading convention
of the source) of variant `i` of the product with id `pid` in a working
map; 0 when the product, the variant array or the index is missing. -/
def effQty (m : List Product) (pid : Int) (i : Nat) : Int :=
  match mapGet m pid with
  | none => 0
  | some p =>
    match p.sabores with
    | none => 0
    | some l =>
      match l[i]? with
      | none => 0
      | some s => jsOrInt s.quantity

/-- Whether processing one line in state `s` records an update: the exact
guard of the loop body (product found, variant present, clamped decrement
different from the old quantity). -/
def effectiveChangeB (s : StockState) (it : OrderItem) : Bool :=
  match mapGet s.productsMap it.id with
  | none => false
  | some product =>
    match product.sabores with
    | none => false
    | some saboresList =>
      if 0 ≤ it.saborIndex then
        match saboresList[it.saborIndex.toNat]? with
        | none => false
        | some sabor =>
          decide (jsOrInt sabor.quantity ≠ max 0 (jsOrInt sabor.quantity - it.quantity))
      else false

/-- The number of lines that produce an effective change, counted against
the working copy as it evolves (a later line sees the decrements of the
earlier ones). -/
def countEffective : StockState → List OrderItem → Nat
  | _, [] => 0
  | s, it :: rest =>
    (if effectiveChangeB s it then 1 else 0) + countEffective (stepItem s it) rest

/-- The ids of the entries of a working map, in order. -/
def mapIds (m : List Product) : List Int :=
  m.map Product.id

/-- A variant counts as available for the normalization sort. -/
def availB (s : Sabor) : Bool :=
  decide (0 < jsOrInt s.quantity)

/-- Every integer stored anywhere in the product record (variant
quantities, legacy color quantities and per-size stocks) is nonnegative;
missing fields are allowed. -/
def productNonnegB (p : Product) : Bool :=
  (match p.colors with
   | none => true
   | some colorsList => colorsList.all fun color =>
      match color.sizes with
      | none => decide (0 ≤ jsOrInt color.quantity)
      | some sizes => sizes.all fun size => decide (0 ≤ jsOrInt size.stock)) &&
  (match p.sabores with
   | none => true
   | some saboresList => saboresList.all fun sabor => decide (0 ≤ jsOrInt sabor.quantity))

/-- The rational 3/2, written as an explicit numerator-denominator pair so
that kernel evaluation never has to normalize a fraction. -/
def threeHalves : ℚ := ⟨3, 2, by decide, by decide⟩

/-- Raw request line whose quantity is the non-integer number 1.5. -/
def rawHalf : RawItem :=
  { id := JsVal.num 1, saborIndex := JsVal.num 0, quantity := JsVal.num threeHalves }

/-- Raw request line with integer fields and positive quantity. -/
def rawGood : RawItem :=
  { id := JsVal.num 2, saborIndex := JsVal.num 0, quantity := JsVal.num 3 }

/-- Claim C2 as stated, at one input: when no line produces an effective
change, no bulk write is issued and the returned result carries an updates
count equal to zero. -/
def claimTwoAsStated (items : List OrderItem) (db : List Product) : Prop :=
  (processItems ⟨mkProductsMap db, [], []⟩ items).updates = [] →
    (updateStockForOrder items db true true).bulkWrite = none ∧
    ∃ r, (updateStockForOrder items db true true).result = StockReturn.ok r ∧
      r.updates = some 0

/-- Sample variant holding 10 units, used by concrete witnesses. -/
def saborA10 : Sabor :=
  { name := some "a", image := none, quantity := some 10, descr := none }

/-- Sample variant holding 0 units. -/
def saborB0 : Sabor :=
  { name := some "b", image := none, quantity := some 0, descr := none }

/-- Sample variant with a negative stored quantity (a raw store row that
violates the documented data model). -/
def saborNeg : Sabor :=
  { name := some "n", image := none, quantity := some (-1), descr := none }

/-- Sample variant with a missing quantity field. -/
def saborNoQty : Sabor :=
  { name := some "m", image := none, quantity := none, descr := none }

/-- Sample variant holding 2 units. -/
def saborP2 : Sabor :=
  { name := some "p", image := none, quantity := some 2, descr := none }

/-- Sample product 1 with one variant of 10 units. -/
def productOne : Product :=
  { id := 1, title := some "t", colors := none, sabores := some [saborA10] }

/-- Sample product 1 whose single variant is sold out. -/
def productOneEmpty : Product :=
  { id := 1, title := some "t", colors := none, sabores := some [saborB0] }

/-- Sample product 2 with a mix of available, sold-out and missing
quantities. -/
def productTwoMixed : Product :=
  { id := 2, title := none, colors := none,
    sabores := some [saborB0, saborP2, saborNoQty, saborA10] }

/-- Sample product 3 containing a negative stored quantity. -/
def productThreeNeg : Product :=
  { id := 3, title := none, colors := none, sabores := some [saborNeg] }

/-- Sample working state holding only `productOne`. -/
def stateOne : StockState :=
  { productsMap := [productOne], updates := [], stockUpdates := [] }

lemma mapGet_id {m : List Product} {pid : Int} {p : Product}
    (h : mapGet m pid = some p) : p.id = pid := by
  induction m with
  | nil => simp [mapGet] at h
  | cons q rest ih =>
    by_cases hq : q.id = pid
    · simp [mapGet, hq] at h
      subst h; exact hq
    · simp [mapGet, hq] at h
      exact ih h

lemma mapGet_mem {m : List Product} {pid : Int} {p : Product}
    (h : mapGet m pid = some p) : p ∈ m := by
  induction m with
  | nil => simp [mapGet] at h
  | cons q rest ih =>
    by_cases hq : q.id = pid
    · simp [mapGet, hq] at h
      subst h; exact List.mem_cons_self _ _
    · simp [mapGet, hq] at h
      exact List.mem_cons_of_mem _ (ih h)

lemma mapGet_mapUpdate_self {m : List Product} {pid : Int} {p q : Product}
    (h : mapGet m pid = some p) (hq : q.id = pid) :
    mapGet (mapUpdate m pid q) pid = some q := by
  induction m with
  | nil => simp [mapGet] at h
  | cons r rest ih =>
    by_cases hr : r.id = pid
    · simp [mapUpdate, hr, mapGet, hq]
    · simp [mapGet, hr] at h
      simp [mapUpdate, hr, mapGet, ih h]

lemma mapUpdate_ids {m : List Product} {pid : Int} {q : Product}
    (hq : q.id = pid) : mapIds (mapUpdate m pid q) = mapIds m := by
  induction m with
  | nil => rfl
  | cons r rest ih =>
    by_cases hr : r.id = pid
    · simp [mapUpdate, hr, mapIds, hq]
    · simp only [mapUpdate, if_neg hr]
      simp only [mapIds, List.map_cons] at ih ⊢
      rw [ih]

/-- Key facts about one loop iteration when the product is found and the
variant index is in range: the working map still contains the product (at
the same id), the variant array keeps its length, and the quantity at the
addressed index is the clamped decrement. -/
lemma stepItem_effect {s : StockState} {it : OrderItem} {product : Product}
    {l : List Sabor}
    (hget : mapGet s.productsMap it.id = some product)
    (hsab : product.sabores = some l)
    (hnn : 0 ≤ it.saborIndex) (hlt : it.saborIndex.toNat < l.length) :
    ∃ product2 l2,
      mapGet (stepItem s it).productsMap it.id = some product2 ∧
      product2.sabores = some l2 ∧ l2.length = l.length ∧
      ∀ h2 : it.saborIndex.toNat < l2.length,
        jsOrInt (l2.get ⟨it.saborIndex.toNat, h2⟩).quantity
          = max 0 (jsOrInt (l.get ⟨it.saborIndex.toNat, hlt⟩).quantity - it.quantity) := by
  have hidx : l[it.saborIndex.toNat]? = some (l.get ⟨it.saborIndex.toNat, hlt⟩) := by
    rw [List.getElem?_eq_getElem hlt]
    simp [List.get_eq_getElem]
  have hqid : ({ product with
      sabores := some (l.set it.saborIndex.toNat
        { l.get ⟨it.saborIndex.toNat, hlt⟩ with
            quantity := some (max 0 (jsOrInt (l.get ⟨it.saborIndex.toNat, hlt⟩).quantity - it.quantity)) }) } : Product).id
      = it.id := by simpa using mapGet_id hget
  unfold stepItem
  rw [hget]
  dsimp only
  rw [hsab]
  dsimp only
  rw [if_pos hnn, hidx]
  dsimp only
  set sabor := l.get ⟨it.saborIndex.toNat, hlt⟩ with hsabor
  by_cases heq : jsOrInt sabor.quantity = max 0 (jsOrInt sabor.quantity - it.quantity)
  · simp only [if_pos heq]
    exact ⟨product, l, hget, hsab, rfl, fun h2 => heq⟩
  · simp only [if_neg heq]
    refine ⟨_, _, mapGet_mapUpdate_self hget hqid, rfl, by simp, ?_⟩
    intro h2
    have : (l.set it.saborIndex.toNat
        { sabor with quantity := some (max 0 (jsOrInt sabor.quantity - it.quantity)) }).get
          ⟨it.saborIndex.toNat, h2⟩
        = { sabor with quantity := some (max 0 (jsOrInt sabor.quantity - it.quantity)) } := by
      simp [List.get_eq_getElem, List.getElem_set_self]
    rw [this]
    rfl

/-- Reading the effective quantity through the observer agrees with the
direct array access when the product and index resolve. -/
lemma effQty_of {m : List Product} {pid : Int} {p : Product} {l : List Sabor} {i : Nat}
    (hget : mapGet m pid = some p) (hsab : p.sabores = some l) (hlt : i < l.length) :
    effQty m pid i = jsOrInt (l.get ⟨i, hlt⟩).quantity := by
  unfold effQty
  rw [hget]
  dsimp only
  rw [hsab]
  dsimp only
  rw [List.getElem?_eq_getElem hlt]
  simp [List.get_eq_getElem]

/-- A line whose product is missing from the working map, whose product
has no variant array, or whose variant index resolves to no array
element, leaves the whole state untouched. -/
lemma stepItem_skip {s : StockState} {it : OrderItem}
    (h : mapGet s.productsMap it.id = none ∨
      ∀ product l, mapGet s.productsMap it.id = some product →
        product.sabores = some l →
        ¬(0 ≤ it.saborIndex ∧ it.saborIndex.toNat < l.length)) :
    stepItem s it = s := by
  unfold stepItem
  cases hget : mapGet s.productsMap it.id with
  | none => rfl
  | some product =>
    dsimp only
    cases hsab : product.sabores with
    | none => rfl
    | some l =>
      dsimp only
      rcases h with h | h
      · rw [hget] at h; exact absurd h (by simp)
      · have hnot := h product l hget hsab
        by_cases hnn : 0 ≤ it.saborIndex
        · have hge : l.length ≤ it.saborIndex.toNat := by
            by_contra hc
            exact hnot ⟨hnn, Nat.lt_of_not_le hc⟩
          rw [if_pos hnn, List.getElem?_eq_none hge]
        · rw [if_neg hnn]

/-- C1: for every processed order line whose product is found in the
working copy of the fetched snapshot and whose variant index is in bounds,
the quantity of that variant after the line is processed equals
max(0, oldQuantity - line.quantity), where oldQuantity is the quantity the
working copy holds when the line is processed; in particular the adjusted
quantity is never negative. -/
theorem claim1_clamped_decrement (s : StockState) (it : OrderItem)
    (product : Product) (l : List Sabor)
    (hget : mapGet s.productsMap it.id = some product)
    (hsab : product.sabores = some l)
    (hnn : 0 ≤ it.saborIndex) (hlt : it.saborIndex.toNat < l.length) :
    effQty (stepItem s it).productsMap it.id it.saborIndex.toNat
        = max 0 (jsOrInt (l.get ⟨it.saborIndex.toNat, hlt⟩).quantity - it.quantity) ∧
    0 ≤ effQty (stepItem s it).productsMap it.id it.saborIndex.toNat := by
  obtain ⟨product2, l2, h1, h2, h3, h4⟩ := stepItem_effect hget hsab hnn hlt
  have hlt2 : it.saborIndex.toNat < l2.length := h3 ▸ hlt
  rw [effQty_of h1 h2 hlt2, h4 hlt2]
  exact ⟨rfl, le_max_left 0 _⟩

/-- Witness for C1: product 1 holds 10 units of variant 0 and a line
orders 3 of them; the theorem instantiates to quantity 7. -/
theorem claim1_clamped_decrement_witness :
    effQty (stepItem stateOne ⟨1, 0, 3⟩).productsMap 1 0 = 7 ∧
    0 ≤ effQty (stepItem stateOne ⟨1, 0, 3⟩).productsMap 1 0 := by
  have h := claim1_clamped_decrement stateOne ⟨1, 0, 3⟩ productOne [saborA10]
    (by decide) (by decide) (by decide) (by decide)
  exact ⟨h.1, h.2⟩

/-- C4: a line whose product id is absent from the working copy of the
fetched snapshot, or whose variant index resolves to no element of the
variant array of the resolved product, records no change at all (the state
is untouched) and processing continues with the remaining lines. There is
no error value anywhere in the embedding because the source raises none
on this path. -/
theorem claim4_dangling_line_skipped (s : StockState) (it : OrderItem)
    (rest : List OrderItem)
    (h : mapGet s.productsMap it.id = none ∨
      ∀ product l, mapGet s.productsMap it.id = some product →
        product.sabores = some l →
        ¬(0 ≤ it.saborIndex ∧ it.saborIndex.toNat < l.length)) :
    stepItem s it = s ∧ processItems s (it :: rest) = processItems s rest := by
  have hs := stepItem_skip h
  exact ⟨hs, by simp [processItems, hs]⟩

/-- Witness for C4: a line referencing the unknown product id 2 leaves the
state untouched and processing moves on to the next line. -/
theorem claim4_dangling_line_skipped_witness :
    stepItem stateOne ⟨2, 0, 1⟩ = stateOne ∧
    processItems stateOne [⟨2, 0, 1⟩, ⟨1, 5, 1⟩]
      = processItems stateOne [⟨1, 5, 1⟩] :=
  claim4_dangling_line_skipped stateOne ⟨2, 0, 1⟩ [⟨1, 5, 1⟩] (Or.inl (by decide))

/-- C8: an empty batch returns the nothing-to-do success result and issues
no store access at all: the bulk read is not reached, and no bulk write
and no audit insert happen, whatever the collaborators would have
answered. -/
theorem claim8_empty_batch_noop (db : List Product) (writeOk auditOk : Bool) :
    updateStockForOrder [] db writeOk auditOk =
      { result := StockReturn.ok
          { success := true, message := "Nenhum item para atualizar",
            updates := none, products := none },
        didFetch := false, bulkWrite := none, auditInsert := none,
        auditError := false } := rfl

/-- C7: with the bulk write succeeding, the returned value (status,
message and counts) and the content of the committed bulk write are the
same whether the audit-trail append succeeds or fails: the audit failure
is swallowed and nothing is rolled back. -/
theorem claim7_audit_failure_isolated (items : List OrderItem)
    (db : List Product) (auditOk1 auditOk2 : Bool) :
    (updateStockForOrder items db true auditOk1).result
        = (updateStockForOrder items db true auditOk2).result ∧
    (updateStockForOrder items db true auditOk1).bulkWrite
        = (updateStockForOrder items db true auditOk2).bulkWrite := by
  simp only [updateStockForOrder]
  constructor <;> (split_ifs <;> rfl)

lemma updateStock_empty_items (items : List OrderItem) (db : List Product)
    (writeOk auditOk : Bool) (h1 : items.length = 0) :
    updateStockForOrder items db writeOk auditOk =
      { result := StockReturn.ok ⟨true, "Nenhum item para atualizar", none, none⟩,
        didFetch := false, bulkWrite := none, auditInsert := none,
        auditError := false } := by
  simp [updateStockForOrder, h1]

lemma updateStock_no_products (items : List OrderItem) (db : List Product)
    (writeOk auditOk : Bool) (h1 : ¬ items.length = 0) (h2 : db.length = 0) :
    updateStockForOrder items db writeOk auditOk =
      { result := StockReturn.ok ⟨true, "Nenhum produto encontrado para atualizar", none, none⟩,
        didFetch := true, bulkWrite := none, auditInsert := none,
        auditError := false } := by
  simp [updateStockForOrder, h1, h2]

lemma updateStock_no_updates (items : List OrderItem) (db : List Product)
    (writeOk auditOk : Bool) (h1 : ¬ items.length = 0) (h2 : ¬ db.length = 0)
    (h3 : (processItems ⟨mkProductsMap db, [], []⟩ items).updates = []) :
    updateStockForOrder items db writeOk auditOk =
      { result := StockReturn.ok ⟨true, "Nenhuma atualização de estoque necessária", none, none⟩,
        didFetch := true, bulkWrite := none, auditInsert := none,
        auditError := false } := by
  simp [updateStockForOrder, h1, h2, h3]

/-- C2 (amended): when every line of the batch results in no effective
change, no bulk write and no audit insert are issued and the routine
returns success; however the returned object carries no updates count at
all (the field is absent, not zero). -/
theorem claim2_no_change_no_write (items : List OrderItem) (db : List Product)
    (writeOk auditOk : Bool)
    (h : (processItems ⟨mkProductsMap db, [], []⟩ items).updates = []) :
    (updateStockForOrder items db writeOk auditOk).bulkWrite = none ∧
    (updateStockForOrder items db writeOk auditOk).auditInsert = none ∧
    ∃ r, (updateStockForOrder items db writeOk auditOk).result = StockReturn.ok r ∧
      r.success = true ∧ r.updates = none := by
  by_cases h1 : items.length = 0
  · rw [updateStock_empty_items items db writeOk auditOk h1]
    exact ⟨rfl, rfl, ⟨_, rfl, rfl, rfl⟩⟩
  · by_cases h2 : db.length = 0
    · rw [updateStock_no_products items db writeOk auditOk h1 h2]
      exact ⟨rfl, rfl, ⟨_, rfl, rfl, rfl⟩⟩
    · rw [updateStock_no_updates items db writeOk auditOk h1 h2 h]
      exact ⟨rfl, rfl, ⟨_, rfl, rfl, rfl⟩⟩

/-- Counterexample for C2: a single line ordering 5 units of a variant
already at quantity 0 produces no change; no write is issued, but the
returned result does not report an updates count of zero - it reports no
updates count at all. -/
theorem claim2_counterexample : ¬ claimTwoAsStated [⟨1, 0, 5⟩] [productOneEmpty] := by
  intro hcl
  obtain ⟨_, r, hr, hu⟩ := hcl (by decide)
  have hres : (updateStockForOrder [⟨1, 0, 5⟩] [productOneEmpty] true true).result
      = StockReturn.ok
          { success := true, message := "Nenhuma atualização de estoque necessária",
            updates := none, products := none } := by decide
  rw [hres] at hr
  injection hr with hrr
  rw [← hrr] at hu
  exact Option.noConfusion hu

/-- Witness for the amended C2: the no-change batch above hits the
no-updates-necessary return with no write and an absent updates count. -/
theorem claim2_no_change_no_write_witness :
    (processItems ⟨mkProductsMap [productOneEmpty], [], []⟩ [⟨1, 0, 5⟩]).updates = [] ∧
    ((updateStockForOrder [⟨1, 0, 5⟩] [productOneEmpty] true true).bulkWrite = none ∧
     (updateStockForOrder [⟨1, 0, 5⟩] [productOneEmpty] true true).auditInsert = none ∧
     ∃ r, (updateStockForOrder [⟨1, 0, 5⟩] [productOneEmpty] true true).result
         = StockReturn.ok r ∧ r.success = true ∧ r.updates = none) :=
  ⟨by decide, claim2_no_change_no_write _ _ _ _ (by decide)⟩

lemma typeofNumber_of_integer {v : JsVal} (h : isIntegerVal v = true) :
    typeofNumber v = true := by
  cases v <;> simp [isIntegerVal, typeofNumber] at h ⊢

/-- Counterexample for C5: the line with quantity 1.5 passes the source
filter although the claimed integer filter drops it, so the two filters
disagree on the input list holding only that line. -/
theorem claim5_counterexample :
    validItems [some rawHalf] = [some rawHalf] ∧
    List.filter specValidLine [some rawHalf] = [] := by
  constructor
  · decide
  · decide

/-- C5 (amended): the caller-side filter passes exactly those lines that
are present and whose product identifier, variant index and quantity are
of JavaScript number type with quantity greater than zero; integrality is
not checked, so every line passing the integer test of the spec also
passes, but non-integer numeric lines are not dropped. -/
theorem claim5_number_filter :
    (∀ items, validItems items = items.filter amendedValidLine) ∧
    ∀ item, specValidLine item = true → amendedValidLine item = true := by
  constructor
  · intro items; rfl
  · intro item h
    cases item with
    | none => simp [specValidLine] at h
    | some it =>
      simp only [specValidLine, amendedValidLine, Bool.and_eq_true] at h ⊢
      obtain ⟨⟨⟨h1, h2⟩, h3⟩, h4⟩ := h
      exact ⟨⟨⟨typeofNumber_of_integer h1, typeofNumber_of_integer h2⟩,
        typeofNumber_of_integer h3⟩, h4⟩

/-- Witness for the amended C5 at a concrete request: the number filter
keeps the integer line and the 1.5 line and drops the null entry, and the
integer-valid line indeed passes the number filter. -/
theorem claim5_number_filter_witness :
    validItems [some rawGood, some rawHalf, none]
      = List.filter amendedValidLine [some rawGood, some rawHalf, none] ∧
    specValidLine (some rawGood) = true ∧
    amendedValidLine (some rawGood) = true :=
  ⟨claim5_number_filter.1 _, by decide, claim5_number_filter.2 _ (by decide)⟩

lemma saborCompare_neg_iff (x y : Sabor) :
    saborCompare x y < 0 ↔ (0 < jsOrInt x.quantity ∧ jsOrInt y.quantity = 0) := by
  unfold saborCompare
  dsimp only
  split_ifs with hx hy
  · simp [hx]
  · simp only [show ¬ ((1:Int) < 0) by omega, false_iff]
    exact hx
  · simp only [show ¬ ((0:Int) < 0) by omega, false_iff]
    exact hx

lemma sortInsert_notAvail {x : Sabor} (hx : ¬ 0 < jsOrInt x.quantity)
    (l : List Sabor) : sortInsert saborCompare x l = l ++ [x] := by
  induction l with
  | nil => rfl
  | cons y ys ih =>
    have hcmp : ¬ saborCompare x y < 0 := by
      rw [saborCompare_neg_iff]
      intro hc
      exact hx hc.1
    simp [sortInsert, hcmp, ih]

lemma sortInsert_avail {x : Sabor} (hx : 0 < jsOrInt x.quantity) :
    ∀ (P Z : List Sabor), (∀ p ∈ P, 0 < jsOrInt p.quantity) →
      (∀ z ∈ Z, jsOrInt z.quantity = 0) →
      sortInsert saborCompare x (P ++ Z) = P ++ x :: Z := by
  intro P
  induction P with
  | nil =>
    intro Z _ hZ
    cases Z with
    | nil => rfl
    | cons z zs =>
      have hcmp : saborCompare x z < 0 := by
        rw [saborCompare_neg_iff]
        exact ⟨hx, hZ z (List.mem_cons_self z zs)⟩
      simp [sortInsert, hcmp]
  | cons p ps ih =>
    intro Z hP hZ
    have hp := hP p (List.mem_cons_self p ps)
    have hcmp : ¬ saborCompare x p < 0 := by
      rw [saborCompare_neg_iff]
      intro hc
      omega
    simp only [List.cons_append, sortInsert, if_neg hcmp, List.cons.injEq, true_and]
    exact ih Z (fun q hq => hP q (List.mem_cons_of_mem p hq)) hZ

lemma jsSort_partition_aux :
    ∀ (l P Z : List Sabor), (∀ p ∈ P, 0 < jsOrInt p.quantity) →
      (∀ z ∈ Z, jsOrInt z.quantity = 0) → (∀ s ∈ l, 0 ≤ jsOrInt s.quantity) →
      List.foldl (fun acc x => sortInsert saborCompare x acc) (P ++ Z) l
        = (P ++ l.filter availB) ++ (Z ++ l.filter fun s => !availB s) := by
  intro l
  induction l with
  | nil =>
    intro P Z _ _ _
    simp
  | cons x rest ih =>
    intro P Z hP hZ hl
    have hx0 : 0 ≤ jsOrInt x.quantity := hl x (List.mem_cons_self x rest)
    have hrest : ∀ s ∈ rest, 0 ≤ jsOrInt s.quantity :=
      fun s hs => hl s (List.mem_cons_of_mem x hs)
    by_cases hx : 0 < jsOrInt x.quantity
    · have hstep : sortInsert saborCompare x (P ++ Z) = (P ++ [x]) ++ Z := by
        rw [sortInsert_avail hx P Z hP hZ]
        simp
      have hPx : ∀ p ∈ P ++ [x], 0 < jsOrInt p.quantity := by
        intro p hp
        rcases List.mem_append.mp hp with hp | hp
        · exact hP p hp
        · simp at hp
          subst hp
          exact hx
      rw [List.foldl_cons, hstep, ih (P ++ [x]) Z hPx hZ hrest]
      have hfa : List.filter availB (x :: rest) = x :: rest.filter availB := by
        simp [List.filter_cons, availB, hx]
      have hfb : List.filter (fun s => !availB s) (x :: rest)
          = rest.filter fun s => !availB s := by
        simp [List.filter_cons, availB, hx]
      rw [hfa, hfb]
      simp
    · have hxz : jsOrInt x.quantity = 0 := by omega
      have hZx : ∀ z ∈ Z ++ [x], jsOrInt z.quantity = 0 := by
        intro z hz
        rcases List.mem_append.mp hz with hz | hz
        · exact hZ z hz
        · simp at hz
          subst hz
          exact hxz
      rw [List.foldl_cons, sortInsert_notAvail hx,
        show (P ++ Z) ++ [x] = P ++ (Z ++ [x]) by simp,
        ih P (Z ++ [x]) hP hZx hrest]
      have hfa : List.filter availB (x :: rest) = rest.filter availB := by
        simp [List.filter_cons, availB, hx]
      have hfb : List.filter (fun s => !availB s) (x :: rest)
          = x :: (rest.filter fun s => !availB s) := by
        simp [List.filter_cons, availB, hx]
      rw [hfa, hfb]
      simp

lemma jsSort_partition {l : List Sabor}
    (hl : ∀ s ∈ l, 0 ≤ jsOrInt s.quantity) :
    jsSort saborCompare l = l.filter availB ++ l.filter fun s => !availB s := by
  have h := jsSort_partition_aux l [] [] (by simp) (by simp) hl
  simpa [jsSort] using h

/-- C6: for a product with a variant array (and no legacy colors array, so
the sorting branch applies) all of whose stored quantities are, as the
data model requires, nonnegative or missing, normalization reorders the
variants as a stable partition: the output is exactly the available
variants (quantity above 0) in their input order followed by the sold-out
variants (quantity 0 or missing) in their input order, each put through
the per-field defaulting. For a negative stored quantity, which the data
model excludes, the comparator of the source is inconsistent and
ECMAScript leaves the sort order implementation-defined. -/
theorem claim6_stable_partition (p : Product) (l : List Sabor)
    (hc : p.colors = none) (hs : p.sabores = some l)
    (hnn : ∀ s ∈ l, 0 ≤ jsOrInt s.quantity) :
    normalizeProducts [p] =
      [{ p with sabores := some ((l.filter availB ++ l.filter (fun s => !availB s)).map fillSabor) }] := by
  unfold normalizeProducts
  simp only [List.map_cons, List.map_nil]
  rw [hc]
  dsimp only
  rw [hs]
  dsimp only
  rw [jsSort_partition hnn]

/-- Witness for C6: a product whose variants hold quantities 0, 2,
missing and 10 normalizes to the 2 and 10 variants first, then the 0 and
missing ones, keeping relative order on both sides. -/
theorem claim6_stable_partition_witness :
    normalizeProducts [productTwoMixed] =
      [{ productTwoMixed with sabores := some (([saborB0, saborP2, saborNoQty, saborA10].filter availB ++ [saborB0, saborP2, saborNoQty, saborA10].filter (fun s => !availB s)).map fillSabor) }] :=
  claim6_stable_partition productTwoMixed [saborB0, saborP2, saborNoQty, saborA10]
    rfl rfl (by decide)

lemma stepItem_updates_shape (s : StockState) (it : OrderItem) :
    (stepItem s it).updates = s.updates ∨
    ∃ rec, (stepItem s it).updates = s.updates ++ [rec] ∧
      rec.newQuantity = max 0 (rec.oldQuantity - it.quantity) := by
  unfold stepItem
  cases hget : mapGet s.productsMap it.id with
  | none => exact Or.inl rfl
  | some product =>
    dsimp only
    cases hsab : product.sabores with
    | none => exact Or.inl rfl
    | some l =>
      dsimp only
      by_cases hnn : 0 ≤ it.saborIndex
      · rw [if_pos hnn]
        cases hidx : l[it.saborIndex.toNat]? with
        | none => exact Or.inl rfl
        | some sabor =>
          dsimp only
          by_cases heq : jsOrInt sabor.quantity
              = max 0 (jsOrInt sabor.quantity - it.quantity)
          · rw [if_pos heq]
            exact Or.inl rfl
          · rw [if_neg heq]
            exact Or.inr ⟨_, rfl, rfl⟩
      · rw [if_neg hnn]
        exact Or.inl rfl

lemma processItems_updates_nonneg :
    ∀ (items : List OrderItem) (s : StockState),
      (∀ u ∈ s.updates, 0 ≤ u.newQuantity) →
      ∀ u ∈ (processItems s items).updates, 0 ≤ u.newQuantity := by
  intro items
  induction items with
  | nil =>
    intro s h
    simpa [processItems] using h
  | cons it rest ih =>
    intro s h
    have hstep : ∀ u ∈ (stepItem s it).updates, 0 ≤ u.newQuantity := by
      rcases stepItem_updates_shape s it with hsh | ⟨rec, hsh, hq⟩
      · rw [hsh]; exact h
      · rw [hsh]
        intro u hu
        rcases List.mem_append.mp hu with hu | hu
        · exact h u hu
        · simp only [List.mem_singleton] at hu
          subst hu
          rw [hq]
          exact le_max_left 0 _
    have : processItems s (it :: rest) = processItems (stepItem s it) rest := by
      simp [processItems]
    rw [this]
    exact ih (stepItem s it) hstep

lemma mem_sortInsert {x y : Sabor} :
    ∀ {l : List Sabor}, y ∈ sortInsert saborCompare x l → y = x ∨ y ∈ l := by
  intro l
  induction l with
  | nil =>
    intro h
    simp [sortInsert] at h
    exact Or.inl h
  | cons z zs ih =>
    intro h
    by_cases hc : saborCompare x z < 0
    · simp only [sortInsert, if_pos hc, List.mem_cons] at h
      rcases h with h | h | h
      · exact Or.inl h
      · exact Or.inr (by simp [h])
      · exact Or.inr (by simp [h])
    · simp only [sortInsert, if_neg hc, List.mem_cons] at h
      rcases h with h | h
      · exact Or.inr (by simp [h])
      · rcases ih h with h | h
        · exact Or.inl h
        · exact Or.inr (by simp [h])

lemma mem_jsSort_aux {y : Sabor} :
    ∀ (l acc : List Sabor),
      y ∈ List.foldl (fun acc x => sortInsert saborCompare x acc) acc l →
      y ∈ acc ∨ y ∈ l := by
  intro l
  induction l with
  | nil =>
    intro acc h
    exact Or.inl (by simpa using h)
  | cons x rest ih =>
    intro acc h
    rw [List.foldl_cons] at h
    rcases ih (sortInsert saborCompare x acc) h with h | h
    · rcases mem_sortInsert h with h | h
      · exact Or.inr (by simp [h])
      · exact Or.inl h
    · exact Or.inr (by simp [h])

lemma mem_jsSort {y : Sabor} {l : List Sabor}
    (h : y ∈ jsSort saborCompare l) : y ∈ l := by
  rcases mem_jsSort_aux l [] h with h | h
  · simp at h
  · exact h

lemma foldl_stock_nonneg :
    ∀ (sizes : List SizeRec) (init : Int), 0 ≤ init →
      (∀ sz ∈ sizes, 0 ≤ jsOrInt sz.stock) →
      0 ≤ sizes.foldl (fun total size => total + jsOrInt size.stock) init := by
  intro sizes
  induction sizes with
  | nil =>
    intro init h _
    simpa using h
  | cons sz rest ih =>
    intro init h hall
    rw [List.foldl_cons]
    have h0 : 0 ≤ jsOrInt sz.stock := hall sz (List.mem_cons_self sz rest)
    exact ih (init + jsOrInt sz.stock) (by omega)
      fun q hq => hall q (List.mem_cons_of_mem sz hq)

/-- C9 (amended): every quantity the stock processor writes into its
working copy is nonnegative, and the quantities reported by product
normalization are nonnegative whenever every stored quantity of the input
record is nonnegative or missing; a negative stored quantity, however, is
passed through normalization unchanged (the `|| 0` fallback replaces only
a missing value). -/
theorem claim9_nonnegative_quantities :
    (∀ (m : List Product) (items : List OrderItem),
       ∀ u ∈ (processItems ⟨m, [], []⟩ items).updates, 0 ≤ u.newQuantity) ∧
    (∀ (p q : Product), productNonnegB p = true → q ∈ normalizeProducts [p] →
       ∀ l2, q.sabores = some l2 → ∀ sab ∈ l2, 0 ≤ jsOrInt sab.quantity) := by
  constructor
  · intro m items u hu
    exact processItems_updates_nonneg items ⟨m, [], []⟩ (by simp) u hu
  · intro p q hB hq l2 hl2 sab hsab
    unfold productNonnegB at hB
    rw [Bool.and_eq_true] at hB
    obtain ⟨hBc, hBs⟩ := hB
    cases hcol : p.colors with
    | some colorsList =>
      rw [hcol] at hBc
      simp only [normalizeProducts, List.map_cons, List.map_nil, hcol] at hq
      simp only [List.mem_singleton] at hq
      subst hq
      simp only at hl2
      injection hl2 with hl2
      subst hl2
      rw [List.mem_map] at hsab
      obtain ⟨color, hcmem, hceq⟩ := hsab
      subst hceq
      unfold colorToSabor
      dsimp only
      simp only [List.all_eq_true] at hBc
      have hc := hBc color hcmem
      cases hsz : color.sizes with
      | some sizes =>
        rw [hsz] at hc
        simp only [List.all_eq_true, decide_eq_true_eq] at hc
        simpa [jsOrInt] using foldl_stock_nonneg sizes 0 le_rfl hc
      | none =>
        rw [hsz] at hc
        simp only [decide_eq_true_eq] at hc
        simpa [jsOrInt] using hc
    | none =>
      rw [hcol] at hBc
      cases hsb : p.sabores with
      | some l =>
        rw [hsb] at hBs
        simp only [normalizeProducts, List.map_cons, List.map_nil, hcol, hsb,
          List.mem_singleton] at hq
        subst hq
        simp only at hl2
        injection hl2 with hl2
        subst hl2
        rw [List.mem_map] at hsab
        obtain ⟨t, htmem, hteq⟩ := hsab
        subst hteq
        have htl : t ∈ l := mem_jsSort htmem
        simp only [List.all_eq_true, decide_eq_true_eq] at hBs
        have := hBs t htl
        unfold fillSabor
        simpa [jsOrInt] using this
      | none =>
        simp only [normalizeProducts, List.map_cons, List.map_nil, hcol, hsb,
          List.mem_singleton] at hq
        subst hq
        rw [hsb] at hl2
        exact absurd hl2 (by simp)

/-- Witness for the amended C9: a processed line writes the nonnegative
quantity 7, and the normalization of the sold-out sample product reports
quantity 0, which is nonnegative. -/
theorem claim9_nonnegative_quantities_witness :
    (∀ u ∈ (processItems ⟨[productOne], [], []⟩ [⟨1, 0, 3⟩]).updates, 0 ≤ u.newQuantity) ∧
    (∀ sab ∈ [fillSabor saborB0], 0 ≤ jsOrInt sab.quantity) :=
  ⟨claim9_nonnegative_quantities.1 [productOne] [⟨1, 0, 3⟩],
   claim9_nonnegative_quantities.2 productOneEmpty
     ⟨1, some "t", none, some [fillSabor saborB0]⟩ (by decide) (by decide)
     [fillSabor saborB0] rfl⟩

/-- Counterexample for C9: a product whose stored variant quantity is -1
normalizes to a variant still reporting quantity -1, which is negative;
the claim fails for inputs with a negative stored quantity field. -/
theorem claim9_counterexample :
    (∃ q ∈ normalizeProducts [productThreeNeg], ∃ l2, q.sabores = some l2 ∧
      ∃ sab ∈ l2, jsOrInt sab.quantity < 0) := by
  refine ⟨⟨3, none, none, some [⟨some "n", some "https://via.placeholder.com/400x300", some (-1), some ""⟩]⟩, by decide, ?_⟩
  refine ⟨[⟨some "n", some "https://via.placeholder.com/400x300", some (-1), some ""⟩], by decide, ?_⟩
  exact ⟨⟨some "n", some "https://via.placeholder.com/400x300", some (-1), some ""⟩, by decide, by decide⟩

lemma max_clamp_compose (x a b : Int) (hb : 0 ≤ b) :
    max 0 (max 0 (x - a) - b) = max 0 (x - (a + b)) := by
  omega

lemma stepItem_effQty {s : StockState} {it : OrderItem} {product : Product}
    {l : List Sabor}
    (hget : mapGet s.productsMap it.id = some product)
    (hsab : product.sabores = some l)
    (hnn : 0 ≤ it.saborIndex) (hlt : it.saborIndex.toNat < l.length) :
    effQty (stepItem s it).productsMap it.id it.saborIndex.toNat
      = max 0 (effQty s.productsMap it.id it.saborIndex.toNat - it.quantity) := by
  obtain ⟨product2, l2, g1, g2, g3, g4⟩ := stepItem_effect hget hsab hnn hlt
  have hlt2 : it.saborIndex.toNat < l2.length := g3 ▸ hlt
  rw [effQty_of g1 g2 hlt2, g4 hlt2, effQty_of hget hsab hlt]

/-- C10: two lines of one batch that target the same product and variant
with positive quantities a and b compose: the second line reads the
quantity the first line wrote into the working copy, the final quantity is
max(0, initial - (a + b)), and the batch is equivalent to a single line of
quantity a + b. -/
theorem claim10_decrements_compose (p : Product) (l : List Sabor) (i : Nat)
    (a b : Int) (hs : p.sabores = some l) (hi : i < l.length)
    (ha : 0 < a) (hb : 0 < b) :
    effQty (processItems ⟨mkProductsMap [p], [], []⟩
        [⟨p.id, (i : Int), a⟩, ⟨p.id, (i : Int), b⟩]).productsMap p.id i
      = max 0 (jsOrInt (l.get ⟨i, hi⟩).quantity - (a + b)) ∧
    effQty (processItems ⟨mkProductsMap [p], [], []⟩
        [⟨p.id, (i : Int), a⟩, ⟨p.id, (i : Int), b⟩]).productsMap p.id i
      = effQty (processItems ⟨mkProductsMap [p], [], []⟩
        [⟨p.id, (i : Int), a + b⟩]).productsMap p.id i := by
  have hget0 : mapGet [p] p.id = some p := by simp [mapGet]
  have hnn : (0 : Int) ≤ (i : Int) := Int.natCast_nonneg i
  have hlt1 : ((i : Int)).toNat < l.length := hi
  obtain ⟨p2, l2, g1, g2, g3, _⟩ :=
    @stepItem_effect ⟨[p], [], []⟩ ⟨p.id, (i : Int), a⟩ p l hget0 hs hnn hlt1
  have hlt2 : ((i : Int)).toNat < l2.length := by
    have : l2.length = l.length := g3
    omega
  have E1 := @stepItem_effQty ⟨[p], [], []⟩ ⟨p.id, (i : Int), a⟩ p l hget0 hs hnn hlt1
  have E2 := @stepItem_effQty (stepItem ⟨[p], [], []⟩ ⟨p.id, (i : Int), a⟩)
      ⟨p.id, (i : Int), b⟩ p2 l2 g1 g2 hnn hlt2
  have E3 := @stepItem_effQty ⟨[p], [], []⟩ ⟨p.id, (i : Int), a + b⟩ p l hget0 hs hnn hlt1
  have E0 : effQty ([p] : List Product) p.id i
      = jsOrInt (l.get ⟨i, hi⟩).quantity := effQty_of hget0 hs hi
  dsimp only at E1 E2 E3
  simp only [Int.toNat_natCast] at E1 E2 E3
  have goal2 : effQty (processItems ⟨mkProductsMap [p], [], []⟩
      [⟨p.id, (i : Int), a⟩, ⟨p.id, (i : Int), b⟩]).productsMap p.id i
      = max 0 (jsOrInt (l.get ⟨i, hi⟩).quantity - (a + b)) := by
    show effQty (stepItem (stepItem ⟨[p], [], []⟩ ⟨p.id, (i : Int), a⟩)
      ⟨p.id, (i : Int), b⟩).productsMap p.id i
        = max 0 (jsOrInt (l.get ⟨i, hi⟩).quantity - (a + b))
    rw [E2, E1]
    show max 0 (max 0 (effQty ([p] : List Product) p.id i - a) - b) = _
    rw [E0]
    exact max_clamp_compose _ a b hb.le
  have goal1 : effQty (processItems ⟨mkProductsMap [p], [], []⟩
      [⟨p.id, (i : Int), a + b⟩]).productsMap p.id i
      = max 0 (jsOrInt (l.get ⟨i, hi⟩).quantity - (a + b)) := by
    show effQty (stepItem ⟨[p], [], []⟩ ⟨p.id, (i : Int), a + b⟩).productsMap p.id i
        = max 0 (jsOrInt (l.get ⟨i, hi⟩).quantity - (a + b))
    rw [E3]
    show max 0 (effQty ([p] : List Product) p.id i - (a + b)) = _
    rw [E0]
  exact ⟨goal2, goal2.trans goal1.symm⟩

/-- Witness for C10: product 1 at quantity 10, two lines of 3 and 4 units
leave quantity 3, the same as one line of 7 units. -/
theorem claim10_decrements_compose_witness :
    effQty (processItems ⟨mkProductsMap [productOne], [], []⟩
        [⟨1, 0, 3⟩, ⟨1, 0, 4⟩]).productsMap 1 0 = 3 ∧
    effQty (processItems ⟨mkProductsMap [productOne], [], []⟩
        [⟨1, 0, 3⟩, ⟨1, 0, 4⟩]).productsMap 1 0
      = effQty (processItems ⟨mkProductsMap [productOne], [], []⟩
        [⟨1, 0, 7⟩]).productsMap 1 0 := by
  have h := claim10_decrements_compose productOne [saborA10] 0 3 4 rfl
    (by decide) (by decide) (by decide)
  exact ⟨h.1, h.2⟩

lemma stepItem_updates_length (s : StockState) (it : OrderItem) :
    (stepItem s it).updates.length
      = s.updates.length + (if effectiveChangeB s it then 1 else 0) := by
  unfold stepItem effectiveChangeB
  cases hget : mapGet s.productsMap it.id with
  | none => simp
  | some product =>
    dsimp only
    cases hsab : product.sabores with
    | none => simp
    | some l =>
      dsimp only
      by_cases hnn : 0 ≤ it.saborIndex
      · rw [if_pos hnn, if_pos hnn]
        cases hidx : l[it.saborIndex.toNat]? with
        | none => simp
        | some sabor =>
          dsimp only
          by_cases heq : jsOrInt sabor.quantity
              = max 0 (jsOrInt sabor.quantity - it.quantity)
          · rw [if_pos heq]
            have hdec : decide (jsOrInt sabor.quantity
                ≠ max 0 (jsOrInt sabor.quantity - it.quantity)) = false :=
              decide_eq_false (not_not_intro heq)
            rw [hdec]
            simp
          · rw [if_neg heq]
            have hdec : decide (jsOrInt sabor.quantity
                ≠ max 0 (jsOrInt sabor.quantity - it.quantity)) = true :=
              decide_eq_true heq
            rw [hdec]
            simp
      · rw [if_neg hnn, if_neg hnn]
        simp

lemma countEffective_cons (s : StockState) (it : OrderItem)
    (rest : List OrderItem) :
    countEffective s (it :: rest)
      = (if effectiveChangeB s it then 1 else 0)
        + countEffective (stepItem s it) rest := rfl

lemma processItems_count :
    ∀ (items : List OrderItem) (s : StockState),
      (processItems s items).updates.length
        = s.updates.length + countEffective s items := by
  intro items
  induction items with
  | nil =>
    intro s
    simp [processItems, countEffective]
  | cons it rest ih =>
    intro s
    have hstep : processItems s (it :: rest) = processItems (stepItem s it) rest := by
      simp [processItems]
    rw [hstep, ih (stepItem s it), stepItem_updates_length, countEffective_cons]
    omega

lemma stepItem_ids (s : StockState) (it : OrderItem) :
    mapIds (stepItem s it).productsMap = mapIds s.productsMap := by
  unfold stepItem
  cases hget : mapGet s.productsMap it.id with
  | none => rfl
  | some product =>
    dsimp only
    cases hsab : product.sabores with
    | none => rfl
    | some l =>
      dsimp only
      by_cases hnn : 0 ≤ it.saborIndex
      · rw [if_pos hnn]
        cases hidx : l[it.saborIndex.toNat]? with
        | none => rfl
        | some sabor =>
          dsimp only
          by_cases heq : jsOrInt sabor.quantity
              = max 0 (jsOrInt sabor.quantity - it.quantity)
          · rw [if_pos heq]
          · rw [if_neg heq]
            exact mapUpdate_ids (by simpa using mapGet_id hget)
      · rw [if_neg hnn]

lemma processItems_ids :
    ∀ (items : List OrderItem) (s : StockState),
      mapIds (processItems s items).productsMap = mapIds s.productsMap := by
  intro items
  induction items with
  | nil => intro s; rfl
  | cons it rest ih =>
    intro s
    have hstep : processItems s (it :: rest) = processItems (stepItem s it) rest := by
      simp [processItems]
    rw [hstep, ih (stepItem s it), stepItem_ids]

lemma stepItem_updates_inMap (s : StockState) (it : OrderItem)
    (h : ∀ u ∈ s.updates, u.productId ∈ mapIds s.productsMap) :
    ∀ u ∈ (stepItem s it).updates,
      u.productId ∈ mapIds (stepItem s it).productsMap := by
  intro u hu
  rw [stepItem_ids]
  revert hu
  unfold stepItem
  cases hget : mapGet s.productsMap it.id with
  | none => exact h u
  | some product =>
    dsimp only
    cases hsab : product.sabores with
    | none => exact h u
    | some l =>
      dsimp only
      by_cases hnn : 0 ≤ it.saborIndex
      · rw [if_pos hnn]
        cases hidx : l[it.saborIndex.toNat]? with
        | none => exact h u
        | some sabor =>
          dsimp only
          by_cases heq : jsOrInt sabor.quantity
              = max 0 (jsOrInt sabor.quantity - it.quantity)
          · rw [if_pos heq]
            exact h u
          · rw [if_neg heq]
            intro hu
            rcases List.mem_append.mp hu with hu | hu
            · exact h u hu
            · simp only [List.mem_singleton] at hu
              subst hu
              dsimp only
              rw [mapIds, List.mem_map]
              exact ⟨product, mapGet_mem hget, rfl⟩
      · rw [if_neg hnn]
        exact h u

lemma processItems_updates_inMap :
    ∀ (items : List OrderItem) (s : StockState),
      (∀ u ∈ s.updates, u.productId ∈ mapIds s.productsMap) →
      ∀ u ∈ (processItems s items).updates,
        u.productId ∈ mapIds (processItems s items).productsMap := by
  intro items
  induction items with
  | nil =>
    intro s h
    simpa [processItems] using h
  | cons it rest ih =>
    intro s h
    have hstep : processItems s (it :: rest) = processItems (stepItem s it) rest := by
      simp [processItems]
    rw [hstep]
    exact ih (stepItem s it) (stepItem_updates_inMap s it h)

lemma mapSet_ids_mem {m : List Product} {q : Product} {x : Int}
    (h : x ∈ mapIds (mapSet m q)) : x = q.id ∨ x ∈ mapIds m := by
  induction m with
  | nil =>
    simp [mapSet, mapIds] at h
    exact Or.inl h
  | cons p rest ih =>
    by_cases hp : p.id = q.id
    · simp only [mapSet, if_pos hp, mapIds, List.map_cons, List.mem_cons] at h
      rcases h with h | h
      · exact Or.inl h
      · exact Or.inr (by simp [mapIds, List.mem_cons]; right; simpa [mapIds] using h)
    · simp only [mapSet, if_neg hp, mapIds, List.map_cons, List.mem_cons] at h
      rcases h with h | h
      · exact Or.inr (by simp [mapIds, h])
      · rcases ih (by simpa [mapIds] using h) with h | h
        · exact Or.inl h
        · exact Or.inr (by simp [mapIds] at h ⊢; right; exact h)

lemma mapSet_nodup {m : List Product} {q : Product}
    (h : (mapIds m).Nodup) : (mapIds (mapSet m q)).Nodup := by
  induction m with
  | nil => simp [mapSet, mapIds]
  | cons p rest ih =>
    simp only [mapIds, List.map_cons, List.nodup_cons] at h
    obtain ⟨hp, hrest⟩ := h
    by_cases hpq : p.id = q.id
    · simp only [mapSet, if_pos hpq, mapIds, List.map_cons, List.nodup_cons]
      exact ⟨by rw [← hpq]; simpa [mapIds] using hp, hrest⟩
    · simp only [mapSet, if_neg hpq, mapIds, List.map_cons, List.nodup_cons]
      refine ⟨?_, ih hrest⟩
      intro hmem
      rcases mapSet_ids_mem (by simpa [mapIds] using hmem) with hh | hh
      · exact hpq hh
      · exact hp (by simpa [mapIds] using hh)

lemma mkProductsMap_nodup_aux :
    ∀ (db : List Product) (acc : List Product), (mapIds acc).Nodup →
      (mapIds (db.foldl mapSet acc)).Nodup := by
  intro db
  induction db with
  | nil =>
    intro acc h
    simpa using h
  | cons p rest ih =>
    intro acc h
    rw [List.foldl_cons]
    exact ih (mapSet acc p) (mapSet_nodup h)

lemma mkProductsMap_nodup (db : List Product) :
    (mapIds (mkProductsMap db)).Nodup :=
  mkProductsMap_nodup_aux db [] (by simp [mapIds])

lemma updateStock_write_bulkWrite (items : List OrderItem) (db : List Product)
    (auditOk : Bool) (h1 : ¬ items.length = 0) (h2 : ¬ db.length = 0)
    (h3 : ¬ (processItems ⟨mkProductsMap db, [], []⟩ items).updates.length = 0) :
    (updateStockForOrder items db true auditOk).bulkWrite
      = some ((processItems ⟨mkProductsMap db, [], []⟩ items).productsMap.filter
          fun product => (processItems ⟨mkProductsMap db, [], []⟩ items).updates.any
            fun update => update.productId = product.id) := by
  simp [updateStockForOrder, h1, h2, h3]

lemma updateStock_write_result (items : List OrderItem) (db : List Product)
    (auditOk : Bool) (h1 : ¬ items.length = 0) (h2 : ¬ db.length = 0)
    (h3 : ¬ (processItems ⟨mkProductsMap db, [], []⟩ items).updates.length = 0) :
    (updateStockForOrder items db true auditOk).result
      = StockReturn.ok
          { success := true,
            message := "Estoque atualizado para "
              ++ toString (processItems ⟨mkProductsMap db, [], []⟩ items).updates.length
              ++ " itens",
            updates := some (processItems ⟨mkProductsMap db, [], []⟩ items).updates.length,
            products := some ((processItems ⟨mkProductsMap db, [], []⟩ items).productsMap.filter
              fun product => (processItems ⟨mkProductsMap db, [], []⟩ items).updates.any
                fun update => update.productId = product.id).length } := by
  simp [updateStockForOrder, h1, h2, h3]

/-- C3: whenever the bulk write is issued, the id set of the product
records it contains is exactly the set of product ids carrying at least
one recorded variant change, with no id written twice; the reported
products count is the number of records written, which equals the number
of distinct changed product ids, and the reported updates count is the
number of lines that produced an effective change (counted against the
evolving working copy). -/
theorem claim3_write_set_exact (items : List OrderItem) (db : List Product)
    (auditOk : Bool) (h1 : items ≠ []) (h2 : db ≠ [])
    (h3 : (processItems ⟨mkProductsMap db, [], []⟩ items).updates ≠ []) :
    ∃ ws,
      (updateStockForOrder items db true auditOk).bulkWrite = some ws ∧
      (mapIds ws).Nodup ∧
      (mapIds ws).toFinset
        = ((processItems ⟨mkProductsMap db, [], []⟩ items).updates.map
            UpdateRec.productId).toFinset ∧
      (updateStockForOrder items db true auditOk).result
        = StockReturn.ok
            { success := true,
              message := "Estoque atualizado para "
                ++ toString (countEffective ⟨mkProductsMap db, [], []⟩ items)
                ++ " itens",
              updates := some (countEffective ⟨mkProductsMap db, [], []⟩ items),
              products := some ((mapIds ws).toFinset.card) } ∧
      ws.length = (mapIds ws).toFinset.card := by
  have hl1 : ¬ items.length = 0 := by simpa [List.length_eq_zero] using h1
  have hl2 : ¬ db.length = 0 := by simpa [List.length_eq_zero] using h2
  have hl3 : ¬ (processItems ⟨mkProductsMap db, [], []⟩ items).updates.length = 0 := by
    simpa [List.length_eq_zero] using h3
  have hnodupMap : (mapIds (processItems ⟨mkProductsMap db, [], []⟩
      items).productsMap).Nodup := by
    rw [processItems_ids items ⟨mkProductsMap db, [], []⟩]
    exact mkProductsMap_nodup db
  have hnodupWs : (mapIds ((processItems ⟨mkProductsMap db, [], []⟩ items).productsMap.filter
      fun product => (processItems ⟨mkProductsMap db, [], []⟩ items).updates.any
        fun update => update.productId = product.id)).Nodup := by
    refine hnodupMap.sublist ?_
    exact (List.filter_sublist _).map Product.id
  have hcardWs : ((processItems ⟨mkProductsMap db, [], []⟩ items).productsMap.filter
      fun product => (processItems ⟨mkProductsMap db, [], []⟩ items).updates.any
        fun update => update.productId = product.id).length
      = (mapIds ((processItems ⟨mkProductsMap db, [], []⟩ items).productsMap.filter
          fun product => (processItems ⟨mkProductsMap db, [], []⟩ items).updates.any
            fun update => update.productId = product.id)).toFinset.card := by
    rw [List.toFinset_card_of_nodup hnodupWs]
    simp [mapIds]
  refine ⟨_, updateStock_write_bulkWrite items db auditOk hl1 hl2 hl3,
    hnodupWs, ?_, ?_, hcardWs⟩
  · ext x
    simp only [List.mem_toFinset, mapIds, List.mem_map, List.mem_filter,
      List.any_eq_true, decide_eq_true_eq]
    constructor
    · rintro ⟨p, ⟨hpmem, u, hu, hup⟩, rfl⟩
      exact ⟨u, hu, hup⟩
    · rintro ⟨u, hu, rfl⟩
      have hin : u.productId ∈ mapIds
          (processItems ⟨mkProductsMap db, [], []⟩ items).productsMap :=
        processItems_updates_inMap items ⟨mkProductsMap db, [], []⟩ (by simp) u hu
      rw [mapIds, List.mem_map] at hin
      obtain ⟨p, hp, hpid⟩ := hin
      exact ⟨p, ⟨hp, u, hu, hpid.symm⟩, hpid⟩
  · rw [updateStock_write_result items db auditOk hl1 hl2 hl3]
    have hcount : (processItems ⟨mkProductsMap db, [], []⟩ items).updates.length
        = countEffective ⟨mkProductsMap db, [], []⟩ items := by
      simpa using processItems_count items ⟨mkProductsMap db, [], []⟩
    rw [hcount, hcardWs]

/-- Witness for C3: a single line taking 3 of 10 units of product 1: the
write holds exactly product 1, one update and one product are reported. -/
theorem claim3_write_set_exact_witness :
    ([⟨1, 0, 3⟩] : List OrderItem) ≠ [] ∧ ([productOne] : List Product) ≠ [] ∧
    (processItems ⟨mkProductsMap [productOne], [], []⟩ [⟨1, 0, 3⟩]).updates ≠ [] ∧
    ∃ ws,
      (updateStockForOrder [⟨1, 0, 3⟩] [productOne] true true).bulkWrite = some ws ∧
      (mapIds ws).Nodup ∧
      (mapIds ws).toFinset
        = ((processItems ⟨mkProductsMap [productOne], [], []⟩ [⟨1, 0, 3⟩]).updates.map
            UpdateRec.productId).toFinset ∧
      (updateStockForOrder [⟨1, 0, 3⟩] [productOne] true true).result
        = StockReturn.ok
            { success := true,
              message := "Estoque atualizado para "
                ++ toString (countEffective ⟨mkProductsMap [productOne], [], []⟩ [⟨1, 0, 3⟩])
                ++ " itens",
              updates := some (countEffective ⟨mkProductsMap [productOne], [], []⟩ [⟨1, 0, 3⟩]),
              products := some ((mapIds ws).toFinset.card) } ∧
      ws.length = (mapIds ws).toFinset.card :=
  ⟨by decide, by decide, by decide,
   claim3_write_set_exact [⟨1, 0, 3⟩] [productOne] true (by decide) (by decide) (by decide)⟩

end BackendVercel
